import Mathlib

/-!
Shallow embedding of `serial_keybridge.py`, a serial-to-keyboard bridge.

The program has three parts:
- `find_arduino_port`: scans the filesystem with two glob calls and returns
  the first candidate path, or `none`;
- `process_line`: parses one text line of the form `B1:1` and performs an
  edge-triggered key press or release, tracked in the `held_keys` dict;
- `main`: opens the port, loops reading raw byte lines, decodes them as
  UTF-8 with the ignore error handler, feeds them to `process_line`, and on
  shutdown releases every held key.

Lines are embedded as `List Char`, raw reads as `List Nat` (byte values),
and the Python dict `held_keys` as an insertion-ordered association list
with Python dict update semantics (updates keep the position of the key,
new keys are appended at the end, iteration follows that order).
-/

set_option autoImplicit false

namespace SerialKeybridge

/-- A host keyboard side effect: press or release of a key symbol.
Models `keyboard.press(key_char)` and `keyboard.release(key_char)`. -/
inductive Action where
  | press (k : Char)
  | release (k : Char)
deriving DecidableEq, Repr

/-- The `held_keys` dict, an insertion-ordered string-to-bool map. -/
abbrev HeldKeys := List (List Char × Bool)

/-- `BUTTON_TO_KEY`: the static button-to-key table of the source. -/
def BUTTON_TO_KEY : List (List Char × Char) :=
  [(['B', '1'], 'w'), (['B', '2'], 'a'), (['B', '3'], 's'), (['B', '4'], 'd')]

/-- `held_keys.get(k, dflt)`: lookup with a default. -/
def dictGet (d : HeldKeys) (k : List Char) (dflt : Bool) : Bool :=
  match List.lookup k d with
  | some v => v
  | none => dflt

/-- `held_keys[k] = v`: Python dict assignment. An existing key keeps its
position in iteration order; a new key is appended at the end. -/
def dictSet : HeldKeys → List Char → Bool → HeldKeys
  | [], k, v => [(k, v)]
  | (k0, v0) :: rest, k, v =>
    if k0 = k then (k, v) :: rest else (k0, v0) :: dictSet rest k v

/-- The whitespace characters removed by `str.strip()` restricted to ASCII
(the source only ever meets ASCII protocol lines). -/
def isPySpace (c : Char) : Bool :=
  c == ' ' || c == '\t' || c == '\n' || c == '\r' || c == '\x0b' || c == '\x0c'

/-- `line.strip()`: remove leading and trailing whitespace. -/
def pyStrip (l : List Char) : List Char :=
  ((l.dropWhile isPySpace).reverse.dropWhile isPySpace).reverse

/-- `line.split(':')`: split on every colon; the empty string splits to a
single empty field. -/
def splitColon : List Char → List (List Char)
  | [] => [[]]
  | c :: rest =>
    if c = ':' then [] :: splitColon rest
    else
      match splitColon rest with
      | [] => [[c]]
      | p :: ps => (c :: p) :: ps

/-- Numeric value of a decimal digit character. -/
def digitVal (c : Char) : Nat := c.toNat - '0'.toNat

/-- Digits of `int(s)` after the first one; a single underscore is allowed
between two digits and nowhere else. -/
def parseDigitsCore : Nat → List Char → Option Nat
  | acc, [] => some acc
  | acc, '_' :: rest =>
    match rest with
    | c :: rest2 =>
      if c.isDigit then parseDigitsCore (acc * 10 + digitVal c) rest2 else none
    | [] => none
  | acc, c :: rest =>
    if c.isDigit then parseDigitsCore (acc * 10 + digitVal c) rest else none

/-- An unsigned decimal literal as accepted by `int(s)`: at least one digit,
underscores only between digits. -/
def parseUnsigned : List Char → Option Nat
  | [] => none
  | c :: rest => if c.isDigit then parseDigitsCore (digitVal c) rest else none

/-- `int(s)` for a base-10 string: surrounding whitespace is stripped, an
optional single sign precedes the digits; `none` models `ValueError`. -/
def pyInt (l : List Char) : Option Int :=
  match pyStrip l with
  | '+' :: rest => (parseUnsigned rest).map Int.ofNat
  | '-' :: rest => (parseUnsigned rest).map (fun n => -(n : Int))
  | s => (parseUnsigned s).map Int.ofNat

/-- The parsing phase of `process_line` (source lines 52 to 68): strip the
line, split on colons, require exactly two fields, parse the second as an
integer, look the first up in `BUTTON_TO_KEY`. Returns the button id, its
mapped key and the pressed flag (`int(parts[1]) == 1`), or `none` when the
line is silently dropped. -/
def parseLine (line : List Char) : Option (List Char × Char × Bool) :=
  if pyStrip line = [] then none
  else
    match splitColon (pyStrip line) with
    | [p0, p1] =>
      match pyInt p1 with
      | none => none
      | some v =>
        match List.lookup p0 BUTTON_TO_KEY with
        | none => none
        | some key_char => some (p0, key_char, v == 1)
    | _ => none

/-- The tracker phase of `process_line` (source lines 70 to 79): press on a
transition into held, release on a transition out of held, otherwise do
nothing. -/
def applyEvent (held : HeldKeys) : List Char × Char × Bool → HeldKeys × List Action
  | (button_id, key_char, pressed) =>
    let already_held := dictGet held button_id false
    if pressed && !already_held then
      (dictSet held button_id true, [Action.press key_char])
    else if !pressed && already_held then
      (dictSet held button_id false, [Action.release key_char])
    else (held, [])

/-- `process_line(line)` of the source, with the `held_keys` state passed
explicitly; returns the new state and the key actions performed. -/
def process_line (line : List Char) (held : HeldKeys) : HeldKeys × List Action :=
  match parseLine line with
  | none => (held, [])
  | some ev => applyEvent held ev

/-- Process a list of already-decoded lines in order from a given state. -/
def runLines : List (List Char) → HeldKeys → HeldKeys × List Action
  | [], held => (held, [])
  | l :: rest, held =>
    let r1 := process_line l held
    let r2 := runLines rest r1.1
    (r2.1, r1.2 ++ r2.2)

/-- The error handler of `bytes.decode`: `strict` raises on the first
invalid sequence, `ignore` drops the invalid bytes and continues. -/
inductive Handler where
  | strict
  | ignore
deriving DecidableEq, Repr

/-- Lower bound of the first continuation byte of a multi-byte sequence:
0xE0 and 0xF0 restrict it to exclude overlong encodings. -/
def contLo (b : Nat) : Nat := if b = 0xE0 then 0xA0 else if b = 0xF0 then 0x90 else 0x80

/-- Upper bound of the first continuation byte: 0xED excludes surrogates,
0xF4 excludes code points above 0x10FFFF. -/
def contHi (b : Nat) : Nat := if b = 0xED then 0x9F else if b = 0xF4 then 0x8F else 0xBF

/-- Fuel-indexed UTF-8 decoding of a byte list with the error handler as
a parameter. Each step consumes at least one byte, so fuel equal to the
input length always suffices; `utf8Decode` below applies exactly that
fuel. On an invalid sequence, `strict` returns `Except.error ()` (a
`UnicodeDecodeError`), while `ignore` skips the maximal subpart of the
invalid sequence (the start byte together with the continuation bytes
already validated) and resumes at the next byte. -/
def utf8DecodeF (h : Handler) : Nat → List Nat → Except Unit (List Char)
  | _, [] => .ok []
  | 0, _ :: _ => .error ()
  | fuel + 1, b :: rest =>
    if b < 0x80 then
      (utf8DecodeF h fuel rest).map (fun cs => Char.ofNat b :: cs)
    else if b < 0xC2 then
      -- invalid start byte (continuation byte or overlong 0xC0, 0xC1)
      match h with
      | .strict => .error ()
      | .ignore => utf8DecodeF h fuel rest
    else if b ≤ 0xDF then
      match rest with
      | [] =>
        match h with
        | .strict => .error ()
        | .ignore => .ok []
      | c1 :: r1 =>
        if 0x80 ≤ c1 ∧ c1 ≤ 0xBF then
          (utf8DecodeF h fuel r1).map
            (fun cs => Char.ofNat ((b - 0xC0) * 0x40 + (c1 - 0x80)) :: cs)
        else
          match h with
          | .strict => .error ()
          | .ignore => utf8DecodeF h fuel (c1 :: r1)
    else if b ≤ 0xEF then
      match rest with
      | [] =>
        match h with
        | .strict => .error ()
        | .ignore => .ok []
      | c1 :: r1 =>
        if contLo b ≤ c1 ∧ c1 ≤ contHi b then
          match r1 with
          | [] =>
            match h with
            | .strict => .error ()
            | .ignore => .ok []
          | c2 :: r2 =>
            if 0x80 ≤ c2 ∧ c2 ≤ 0xBF then
              (utf8DecodeF h fuel r2).map
                (fun cs =>
                  Char.ofNat ((b - 0xE0) * 0x1000 + (c1 - 0x80) * 0x40 + (c2 - 0x80)) :: cs)
            else
              match h with
              | .strict => .error ()
              | .ignore => utf8DecodeF h fuel r1
        else
          match h with
          | .strict => .error ()
          | .ignore => utf8DecodeF h fuel (c1 :: r1)
    else if b ≤ 0xF4 then
      match rest with
      | [] =>
        match h with
        | .strict => .error ()
        | .ignore => .ok []
      | c1 :: r1 =>
        if contLo b ≤ c1 ∧ c1 ≤ contHi b then
          match r1 with
          | [] =>
            match h with
            | .strict => .error ()
            | .ignore => .ok []
          | c2 :: r2 =>
            if 0x80 ≤ c2 ∧ c2 ≤ 0xBF then
              match r2 with
              | [] =>
                match h with
                | .strict => .error ()
                | .ignore => .ok []
              | c3 :: r3 =>
                if 0x80 ≤ c3 ∧ c3 ≤ 0xBF then
                  (utf8DecodeF h fuel r3).map
                    (fun cs =>
                      Char.ofNat ((b - 0xF0) * 0x40000 + (c1 - 0x80) * 0x1000 +
                        (c2 - 0x80) * 0x40 + (c3 - 0x80)) :: cs)
                else
                  match h with
                  | .strict => .error ()
                  | .ignore => utf8DecodeF h fuel r2
            else
              match h with
              | .strict => .error ()
              | .ignore => utf8DecodeF h fuel r1
        else
          match h with
          | .strict => .error ()
          | .ignore => utf8DecodeF h fuel (c1 :: r1)
    else
      -- invalid start byte 0xF5 to 0xFF
      match h with
      | .strict => .error ()
      | .ignore => utf8DecodeF h fuel rest

/-- UTF-8 decoding of a byte list, as performed by `raw.decode`. -/
def utf8Decode (h : Handler) (bs : List Nat) : Except Unit (List Char) :=
  utf8DecodeF h bs.length bs

/-- `raw.decode('utf-8', errors='ignore')` as the source calls it; the
error branch is unreachable for the ignore handler. -/
def pyDecodeIgnore (bs : List Nat) : List Char :=
  match utf8Decode .ignore bs with
  | .ok cs => cs
  | .error _ => []

/-- One iteration of the read loop of `main` (source lines 101 to 106):
an empty read (timeout) is skipped, otherwise the raw bytes are decoded
with the ignore handler, stripped, and a nonempty line goes to
`process_line`. -/
def loopStep (held : HeldKeys) (raw : List Nat) : HeldKeys × List Action :=
  if raw = [] then (held, [])
  else
    let line := pyStrip (pyDecodeIgnore raw)
    if line = [] then (held, [])
    else process_line line held

/-- The read loop of `main` over a list of raw reads, threading the
`held_keys` state and collecting the key actions in order. -/
def runLoop : HeldKeys → List (List Nat) → HeldKeys × List Action
  | held, [] => (held, [])
  | held, raw :: rest =>
    let r1 := loopStep held raw
    let r2 := runLoop r1.1 rest
    (r2.1, r1.2 ++ r2.2)

/-- The cleanup of the `finally` block (source lines 111 to 115): for each
dict entry in iteration order, a held button whose id is still in
`BUTTON_TO_KEY` gets one key-up action. -/
def releaseHeld : HeldKeys → List Action
  | [] => []
  | (button_id, is_held) :: rest =>
    (if is_held then
      match List.lookup button_id BUTTON_TO_KEY with
      | some key_char => [Action.release key_char]
      | none => []
    else []) ++ releaseHeld rest

/-- The glob pattern tried first by `find_arduino_port`. -/
def usbmodemGlob : List Char :=
  ['/', 'd', 'e', 'v', '/', 'c', 'u', '.', 'u', 's', 'b', 'm', 'o', 'd', 'e', 'm', '*']

/-- The fallback glob pattern of `find_arduino_port`. -/
def usbserialGlob : List Char :=
  ['/', 'd', 'e', 'v', '/', 'c', 'u', '.', 'u', 's', 'b', 's', 'e', 'r', 'i', 'a', 'l', '*']

/-- `find_arduino_port()`: the filesystem is abstracted as the function
`globFS` giving the match list of each glob pattern. The first pattern is
tried first and its first match returned; otherwise the fallback pattern;
otherwise `none`. -/
def find_arduino_port (globFS : List Char → List (List Char)) : Option (List Char) :=
  match globFS usbmodemGlob with
  | c :: _ => some c
  | [] =>
    match globFS usbserialGlob with
    | c :: _ => some c
    | [] => none

/-- How the `Running` state ends: a `KeyboardInterrupt` (caught, so `main`
returns normally and the process exits with status 0) or an I/O error
raised by a read (uncaught, so the interpreter terminates with status 1
after the `finally` block runs). -/
inductive Trigger where
  | interrupt
  | ioError
deriving DecidableEq, Repr

/-- Observable outcome of one run of `main`: the process exit status, the
key actions of the read loop, and the key actions of the cleanup block. -/
structure MainResult where
  exitCode : Nat
  runActions : List Action
  cleanupActions : List Action
deriving DecidableEq, Repr

/-- `main()` (source lines 82 to 117) as a function of its environment:
the filesystem seen by glob, whether `serial.Serial` succeeds, the raw
byte lines read before the shutdown trigger, and the trigger itself.
No port or a failed open exits with status 1 before any key action. In
the `Running` state the read loop runs over the reads; on either trigger
the `finally` block releases all held keys; a caught interrupt gives exit
status 0, an uncaught read error gives exit status 1. -/
def main (globFS : List Char → List (List Char)) (openOk : Bool)
    (raws : List (List Nat)) (trig : Trigger) : MainResult :=
  match find_arduino_port globFS with
  | none => ⟨1, [], []⟩
  | some _ =>
    if openOk = false then ⟨1, [], []⟩
    else
      let r := runLoop [] raws
      let code := match trig with | .interrupt => 0 | .ioError => 1
      ⟨code, r.2, releaseHeld r.1⟩

/-! ## Helper lemmas about the `held_keys` dict and the button table -/

theorem dictGet_dictSet_self (d : HeldKeys) (k : List Char) (v : Bool) (dflt : Bool) :
    dictGet (dictSet d k v) k dflt = v := by
  induction d with
  | nil => simp [dictSet, dictGet, List.lookup]
  | cons hd tl ih =>
    obtain ⟨k0, v0⟩ := hd
    by_cases hk : k0 = k
    · subst hk
      simp [dictSet, dictGet, List.lookup]
    · simp only [dictSet, if_neg hk]
      simpa [dictGet, List.lookup, show (k == k0) = false by simp [hk, Ne.symm hk]] using ih

theorem mem_dictSet {d : HeldKeys} {k : List Char} {v : Bool} {k1 : List Char} {b1 : Bool}
    (h : (k1, b1) ∈ dictSet d k v) : k1 = k ∨ (k1, b1) ∈ d := by
  induction d with
  | nil => exact Or.inl (by simpa [dictSet] using h : k1 = k ∧ b1 = v).1
  | cons hd tl ih =>
    obtain ⟨k0, v0⟩ := hd
    by_cases hk : k0 = k
    · subst hk
      rcases (by simpa [dictSet] using h : (k1 = k0 ∧ b1 = v) ∨ (k1, b1) ∈ tl) with h1 | h1
      · exact Or.inl h1.1
      · exact Or.inr (List.mem_cons_of_mem _ h1)
    · rcases (by simpa [dictSet, if_neg hk] using h :
          (k1 = k0 ∧ b1 = v0) ∨ (k1, b1) ∈ dictSet tl k v) with h1 | h1
      · exact Or.inr (by simp [h1.1, h1.2])
      · rcases ih h1 with h2 | h2
        · exact Or.inl h2
        · exact Or.inr (List.mem_cons_of_mem _ h2)

theorem map_fst_dictSet (d : HeldKeys) (k : List Char) (v : Bool) :
    (dictSet d k v).map Prod.fst =
      if k ∈ d.map Prod.fst then d.map Prod.fst else d.map Prod.fst ++ [k] := by
  induction d with
  | nil => simp [dictSet]
  | cons hd tl ih =>
    obtain ⟨k0, v0⟩ := hd
    by_cases hk : k0 = k
    · subst hk
      simp [dictSet]
    · simp only [dictSet, if_neg hk, List.map_cons, ih]
      by_cases hmem : k ∈ tl.map Prod.fst <;>
        simp [hmem, hk, Ne.symm hk]

theorem nodup_dictSet {d : HeldKeys} (k : List Char) (v : Bool)
    (h : (d.map Prod.fst).Nodup) : ((dictSet d k v).map Prod.fst).Nodup := by
  rw [map_fst_dictSet]
  by_cases hmem : k ∈ d.map Prod.fst
  · simpa [hmem] using h
  · simpa [hmem, List.nodup_append] using h

theorem lookup_mem {d : HeldKeys} {k : List Char} {b : Bool}
    (h : List.lookup k d = some b) : (k, b) ∈ d := by
  induction d with
  | nil => simp [List.lookup] at h
  | cons hd tl ih =>
    obtain ⟨k0, v0⟩ := hd
    by_cases hk : k = k0
    · subst hk
      simp only [List.lookup, beq_self_eq_true] at h
      simp [← Option.some_inj.mp h]
    · simp only [List.lookup, show (k == k0) = false by simp [hk]] at h
      exact List.mem_cons_of_mem _ (ih h)

theorem dictGet_true_lookup {d : HeldKeys} {k : List Char}
    (h : dictGet d k false = true) : List.lookup k d = some true := by
  unfold dictGet at h
  cases hl : List.lookup k d with
  | none => rw [hl] at h; exact absurd h (by simp)
  | some b => rw [hl] at h; simp only at h; subst h; rfl

/-- Case analysis of a successful lookup in the four-entry button table. -/
theorem lookup_button_cases {bid : List Char} {k : Char}
    (h : List.lookup bid BUTTON_TO_KEY = some k) :
    (bid = ['B', '1'] ∧ k = 'w') ∨ (bid = ['B', '2'] ∧ k = 'a') ∨
    (bid = ['B', '3'] ∧ k = 's') ∨ (bid = ['B', '4'] ∧ k = 'd') := by
  simp only [BUTTON_TO_KEY, List.lookup] at h
  split at h
  next heq => exact Or.inl ⟨by simpa using heq, (Option.some_inj.mp h).symm⟩
  next =>
    split at h
    next heq => exact Or.inr (Or.inl ⟨by simpa using heq, (Option.some_inj.mp h).symm⟩)
    next =>
      split at h
      next heq =>
        exact Or.inr (Or.inr (Or.inl ⟨by simpa using heq, (Option.some_inj.mp h).symm⟩))
      next =>
        split at h
        next heq =>
          exact Or.inr (Or.inr (Or.inr ⟨by simpa using heq, (Option.some_inj.mp h).symm⟩))
        next => exact absurd h (by simp)

/-- The button-to-key table is injective on its successful lookups. -/
theorem button_key_inj {a b : List Char} {k : Char}
    (ha : List.lookup a BUTTON_TO_KEY = some k)
    (hb : List.lookup b BUTTON_TO_KEY = some k) : a = b := by
  rcases lookup_button_cases ha with ⟨h1, h2⟩ | ⟨h1, h2⟩ | ⟨h1, h2⟩ | ⟨h1, h2⟩ <;>
    rcases lookup_button_cases hb with ⟨h3, h4⟩ | ⟨h3, h4⟩ | ⟨h3, h4⟩ | ⟨h3, h4⟩ <;>
    simp_all

/-- A successful parse returns the key actually mapped to the button id. -/
theorem parseLine_some_lookup {l : List Char} {bid : List Char} {kc : Char} {p : Bool}
    (h : parseLine l = some (bid, kc, p)) :
    List.lookup bid BUTTON_TO_KEY = some kc := by
  unfold parseLine at h
  split at h
  · exact absurd h (by simp)
  · repeat' split at h
    all_goals simp_all

/-! ## Reduction lemmas for the tracker phase -/

theorem applyEvent_press {held : HeldKeys} {bid : List Char} {k : Char}
    (hheld : dictGet held bid false = false) :
    applyEvent held (bid, k, true) = (dictSet held bid true, [Action.press k]) := by
  simp [applyEvent, hheld]

theorem applyEvent_press_redundant {held : HeldKeys} {bid : List Char} {k : Char}
    (hheld : dictGet held bid false = true) :
    applyEvent held (bid, k, true) = (held, []) := by
  simp [applyEvent, hheld]

theorem applyEvent_release {held : HeldKeys} {bid : List Char} {k : Char}
    (hheld : dictGet held bid false = true) :
    applyEvent held (bid, k, false) = (dictSet held bid false, [Action.release k]) := by
  simp [applyEvent, hheld]

theorem applyEvent_release_redundant {held : HeldKeys} {bid : List Char} {k : Char}
    (hheld : dictGet held bid false = false) :
    applyEvent held (bid, k, false) = (held, []) := by
  simp [applyEvent, hheld]

/-- Parsing a press line and a release line of a supported button. -/
theorem parseLine_button {bid : List Char} {k : Char}
    (h : List.lookup bid BUTTON_TO_KEY = some k) :
    parseLine (bid ++ [':', '1']) = some (bid, k, true) ∧
    parseLine (bid ++ [':', '0']) = some (bid, k, false) := by
  rcases lookup_button_cases h with ⟨h1, h2⟩ | ⟨h1, h2⟩ | ⟨h1, h2⟩ | ⟨h1, h2⟩ <;>
    subst h1 <;> subst h2 <;> exact ⟨by decide, by decide⟩

/-! ## Claim theorems -/

/-- Claim C2: the key-state tracker is edge-triggered. For every supported
button id, a press line in the not-held state performs exactly one
key-down action and sets the held flag, and the same line again performs
nothing; symmetrically a release line in the held state performs exactly
one key-up action and clears the held flag, and a repeat performs
nothing. -/
theorem process_line_edge_triggered :
    ∀ (bid : List Char) (k : Char) (held : HeldKeys),
      List.lookup bid BUTTON_TO_KEY = some k →
      (dictGet held bid false = false →
        process_line (bid ++ [':', '1']) held = (dictSet held bid true, [Action.press k]) ∧
        dictGet (dictSet held bid true) bid false = true ∧
        process_line (bid ++ [':', '1']) (dictSet held bid true) = (dictSet held bid true, [])) ∧
      (dictGet held bid false = true →
        process_line (bid ++ [':', '0']) held = (dictSet held bid false, [Action.release k]) ∧
        dictGet (dictSet held bid false) bid false = false ∧
        process_line (bid ++ [':', '0']) (dictSet held bid false) = (dictSet held bid false, [])) := by
  intro bid k held h
  obtain ⟨hp1, hp0⟩ := parseLine_button h
  refine ⟨fun hheld => ⟨?_, ?_, ?_⟩, fun hheld => ⟨?_, ?_, ?_⟩⟩
  · simp only [process_line, hp1]
    exact applyEvent_press hheld
  · simp [dictGet_dictSet_self]
  · simp only [process_line, hp1]
    exact applyEvent_press_redundant (by simp [dictGet_dictSet_self])
  · simp only [process_line, hp0]
    exact applyEvent_release hheld
  · simp [dictGet_dictSet_self]
  · simp only [process_line, hp0]
    exact applyEvent_release_redundant (by simp [dictGet_dictSet_self])

theorem process_line_edge_triggered_witness :
    process_line ['B', '4', ':', '1'] [] = ([(['B', '4'], true)], [Action.press 'd']) :=
  ((process_line_edge_triggered ['B', '4'] 'd' [] (by decide)).1 (by decide)).1

/-- Claim C3: the pressed flag of a decoded event is true exactly when the
integer value of the second field is 1; any other integer yields a
released event, so a line such as `B1:2` or `B1:-1` drives the tracker
exactly like `B1:0`. -/
theorem pressed_iff_second_field_eq_one :
    (∀ (l p0 p1 : List Char) (n : Int) (k : Char),
      splitColon (pyStrip l) = [p0, p1] →
      pyInt p1 = some n →
      List.lookup p0 BUTTON_TO_KEY = some k →
      parseLine l = some (p0, k, n == 1) ∧ ((n == 1) = true ↔ n = 1)) ∧
    (∀ held : HeldKeys,
      process_line ['B', '1', ':', '2'] held = process_line ['B', '1', ':', '0'] held ∧
      process_line ['B', '1', ':', '-', '1'] held = process_line ['B', '1', ':', '0'] held) := by
  constructor
  · intro l p0 p1 n k hsplit hint hlook
    have hne : ¬ pyStrip l = [] := by
      intro he
      rw [he] at hsplit
      simp [splitColon] at hsplit
    refine ⟨?_, by simp⟩
    simp [parseLine, hne, hsplit, hint, hlook]
  · intro held
    have h2 : parseLine ['B', '1', ':', '2'] = some (['B', '1'], 'w', false) := by decide
    have hm1 : parseLine ['B', '1', ':', '-', '1'] = some (['B', '1'], 'w', false) := by decide
    have h0 : parseLine ['B', '1', ':', '0'] = some (['B', '1'], 'w', false) := by decide
    exact ⟨by simp only [process_line, h2, h0], by simp only [process_line, hm1, h0]⟩

theorem pressed_iff_second_field_eq_one_witness :
    (parseLine ['B', '1', ':', '2'] = some (['B', '1'], 'w', ((2 : Int) == 1)) ∧
      (((2 : Int) == 1) = true ↔ (2 : Int) = 1)) :=
  pressed_iff_second_field_eq_one.1 ['B', '1', ':', '2'] ['B', '1'] ['2'] 2 'w'
    (by decide) (by decide) (by decide)

/-- Claim C4: a line that is empty after stripping, does not split into
exactly two colon-separated fields, has a non-integer second field, or
has an unrecognized button id performs no key action and leaves the
held-state dict unchanged. -/
theorem malformed_line_silently_dropped :
    ∀ (l : List Char) (held : HeldKeys),
      (pyStrip l = [] ∨
        (¬ ∃ p0 p1, splitColon (pyStrip l) = [p0, p1]) ∨
        (∃ p0 p1, splitColon (pyStrip l) = [p0, p1] ∧ pyInt p1 = none) ∨
        (∃ p0 p1, splitColon (pyStrip l) = [p0, p1] ∧
          List.lookup p0 BUTTON_TO_KEY = none)) →
      process_line l held = (held, []) := by
  intro l held h
  have hp : parseLine l = none := by
    rcases h with h | h | h | h
    · simp [parseLine, h]
    · by_cases he : pyStrip l = []
      · simp [parseLine, he]
      · rcases hsp : splitColon (pyStrip l) with - | ⟨p0, rest⟩
        · simp [parseLine, he, hsp]
        · rcases rest with - | ⟨p1, rest2⟩
          · simp [parseLine, he, hsp]
          · rcases rest2 with - | ⟨p2, rest3⟩
            · exact absurd ⟨p0, p1, hsp⟩ h
            · simp [parseLine, he, hsp]
    · obtain ⟨p0, p1, hsp, hint⟩ := h
      have he : ¬ pyStrip l = [] := by
        intro he
        rw [he] at hsp
        simp [splitColon] at hsp
      simp [parseLine, he, hsp, hint]
    · obtain ⟨p0, p1, hsp, hlk⟩ := h
      have he : ¬ pyStrip l = [] := by
        intro he
        rw [he] at hsp
        simp [splitColon] at hsp
      cases hint : pyInt p1 with
      | none => simp [parseLine, he, hsp, hint]
      | some v => simp [parseLine, he, hsp, hint, hlk]
  simp [process_line, hp]

theorem malformed_line_silently_dropped_witness :
    process_line ['B', '9', ':', '1'] [(['B', '1'], true)] = ([(['B', '1'], true)], []) :=
  malformed_line_silently_dropped ['B', '9', ':', '1'] [(['B', '1'], true)]
    (Or.inr (Or.inr (Or.inr ⟨['B', '9'], ['1'], by decide, by decide⟩)))

/-- Claim C5: from the empty held state, the input sequence `B1:1`,
`B1:1`, `B3:1`, `B1:0`, `B3:0` performs exactly W down, S down, W up,
S up, in that order. -/
theorem end_to_end_sequence :
    (runLines [['B', '1', ':', '1'], ['B', '1', ':', '1'], ['B', '3', ':', '1'],
      ['B', '1', ':', '0'], ['B', '3', ':', '0']] []).2 =
      [Action.press 'w', Action.press 's', Action.release 'w', Action.release 's'] := by
  decide

/-- Claim C7: `find_arduino_port` returns the first match of the USB-modem
pattern when that pattern matches anything, otherwise the first match of
the USB-serial pattern, otherwise the explicit not-found value `none`,
all from a single scan with no retry. -/
theorem find_arduino_port_policy :
    ∀ globFS : List Char → List (List Char),
      (globFS usbmodemGlob ≠ [] →
        find_arduino_port globFS = (globFS usbmodemGlob).head?) ∧
      (globFS usbmodemGlob = [] → globFS usbserialGlob ≠ [] →
        find_arduino_port globFS = (globFS usbserialGlob).head?) ∧
      (globFS usbmodemGlob = [] → globFS usbserialGlob = [] →
        find_arduino_port globFS = none) := by
  intro globFS
  refine ⟨fun h1 => ?_, fun h1 h2 => ?_, fun h1 h2 => ?_⟩
  · cases hm : globFS usbmodemGlob with
    | nil => exact absurd hm h1
    | cons a t => simp [find_arduino_port, hm]
  · cases hs : globFS usbserialGlob with
    | nil => exact absurd hs h2
    | cons a t => simp [find_arduino_port, h1, hs]
  · simp [find_arduino_port, h1, h2]

/-- Claim C8: port discovery is a function of the filesystem state alone;
two runs over extensionally equal filesystem states return the same
result. -/
theorem find_arduino_port_deterministic :
    ∀ fs1 fs2 : List Char → List (List Char),
      (∀ pat, fs1 pat = fs2 pat) →
      find_arduino_port fs1 = find_arduino_port fs2 := by
  intro fs1 fs2 h
  simp only [find_arduino_port, h usbmodemGlob, h usbserialGlob]

/-- Claim C6: the process exit status is 1 when no device path is found or
when the open fails, and 0 on a user-interrupt shutdown from the running
state. -/
theorem main_exit_codes :
    ∀ (globFS : List Char → List (List Char)) (openOk : Bool) (raws : List (List Nat))
      (trig : Trigger) (p : List Char),
      (find_arduino_port globFS = none → (main globFS openOk raws trig).exitCode = 1) ∧
      (find_arduino_port globFS = some p → (main globFS false raws trig).exitCode = 1) ∧
      (find_arduino_port globFS = some p →
        (main globFS true raws Trigger.interrupt).exitCode = 0) := by
  intro globFS openOk raws trig p
  refine ⟨fun h => ?_, fun h => ?_, fun h => ?_⟩ <;> simp [main, h]

/-! ## Concrete filesystem states used by the witnesses -/

/-- A filesystem state where neither glob pattern matches anything. -/
def globNone : List Char → List (List Char) := fun _ => []

/-- A filesystem state where the USB-modem pattern has one match. -/
def globModem : List Char → List (List Char) := fun pat =>
  if pat = usbmodemGlob then [['p']] else []

/-- The same filesystem state as `globModem`, written differently. -/
def globModemB : List Char → List (List Char) := fun pat =>
  ((globModem pat).reverse).reverse

theorem main_exit_codes_witness :
    (main globNone true [] Trigger.interrupt).exitCode = 1 ∧
    (main globModem false [] Trigger.interrupt).exitCode = 1 ∧
    (main globModem true [] Trigger.interrupt).exitCode = 0 :=
  ⟨(main_exit_codes globNone true [] Trigger.interrupt ['p']).1 (by decide),
    (main_exit_codes globModem true [] Trigger.interrupt ['p']).2.1 (by decide),
    (main_exit_codes globModem true [] Trigger.interrupt ['p']).2.2 (by decide)⟩

theorem find_arduino_port_policy_witness :
    find_arduino_port globModem = (globModem usbmodemGlob).head? :=
  (find_arduino_port_policy globModem).1 (by decide)

theorem find_arduino_port_deterministic_witness :
    find_arduino_port globModem = find_arduino_port globModemB :=
  find_arduino_port_deterministic globModem globModemB (fun pat => by simp [globModemB])

/-! ## The reachable-state invariant of the `held_keys` dict -/

/-- States of the `held_keys` dict reachable by the program: the keys are
distinct and every key is a recognized button id. -/
def goodDict (d : HeldKeys) : Prop :=
  (d.map Prod.fst).Nodup ∧ ∀ p ∈ d, (List.lookup p.1 BUTTON_TO_KEY).isSome = true

theorem goodDict_nil : goodDict [] := by
  simp [goodDict]

theorem goodDict_dictSet {d : HeldKeys} {k : List Char} {v : Bool} (hd : goodDict d)
    (hk : (List.lookup k BUTTON_TO_KEY).isSome = true) : goodDict (dictSet d k v) := by
  refine ⟨nodup_dictSet k v hd.1, ?_⟩
  intro p hp
  obtain ⟨k1, b1⟩ := p
  rcases mem_dictSet hp with h | h
  · simpa [h] using hk
  · exact hd.2 _ h

theorem process_line_goodDict (l : List Char) {held : HeldKeys} (hd : goodDict held) :
    goodDict (process_line l held).1 := by
  cases hp : parseLine l with
  | none => simpa [process_line, hp] using hd
  | some ev =>
    obtain ⟨bid, kc, p⟩ := ev
    have hs : (List.lookup bid BUTTON_TO_KEY).isSome = true := by
      simp [parseLine_some_lookup hp]
    simp only [process_line, hp, applyEvent]
    split
    · exact goodDict_dictSet hd hs
    · split
      · exact goodDict_dictSet hd hs
      · exact hd

theorem loopStep_goodDict (raw : List Nat) {held : HeldKeys} (hd : goodDict held) :
    goodDict (loopStep held raw).1 := by
  simp only [loopStep]
  split
  · exact hd
  · split
    · exact hd
    · exact process_line_goodDict _ hd

theorem runLoop_goodDict (raws : List (List Nat)) {held : HeldKeys} (hd : goodDict held) :
    goodDict (runLoop held raws).1 := by
  induction raws generalizing held with
  | nil => simpa [runLoop] using hd
  | cons raw rest ih => exact ih (loopStep_goodDict raw hd)

/-- When every held entry has a recognized button id, the cleanup emits
one key-up per held entry: the table lookup inside the loop never fails. -/
theorem releaseHeld_length {d : HeldKeys}
    (h : ∀ p ∈ d, (List.lookup p.1 BUTTON_TO_KEY).isSome = true) :
    (releaseHeld d).length = (d.filter fun p => p.2).length := by
  induction d with
  | nil => simp [releaseHeld]
  | cons hd tl ih =>
    obtain ⟨bid, ish⟩ := hd
    have htl : ∀ p ∈ tl, (List.lookup p.1 BUTTON_TO_KEY).isSome = true :=
      fun p hp => h p (List.mem_cons_of_mem _ hp)
    have hh := h (bid, ish) (List.mem_cons_self _ _)
    cases ish with
    | false => simpa [releaseHeld] using ih htl
    | true =>
      obtain ⟨k, hk⟩ := Option.isSome_iff_exists.mp hh
      simp [releaseHeld, hk, ih htl]

/-- Claim C9: every key ever stored in `held_keys` is a key of
`BUTTON_TO_KEY`, because an entry is only written after the table lookup
succeeds; consequently the table lookup done for each held button during
cleanup never fails, so no held entry is skipped. -/
theorem held_keys_domain_invariant :
    ∀ raws : List (List Nat),
      (∀ (bid : List Char) (b : Bool), (bid, b) ∈ (runLoop [] raws).1 →
        (List.lookup bid BUTTON_TO_KEY).isSome = true) ∧
      (releaseHeld (runLoop [] raws).1).length =
        ((runLoop [] raws).1.filter fun p => p.2).length := by
  intro raws
  have hg := runLoop_goodDict raws goodDict_nil
  exact ⟨fun bid b hm => hg.2 (bid, b) hm, releaseHeld_length hg.2⟩

theorem held_keys_domain_invariant_witness :
    (List.lookup ['B', '1'] BUTTON_TO_KEY).isSome = true :=
  (held_keys_domain_invariant [[66, 49, 58, 49]]).1 ['B', '1'] true (by decide)

/-! ## Counting the cleanup actions -/

theorem count_release_zero {d : HeldKeys} {k : Char}
    (h : ∀ (bid : List Char) (b : Bool), (bid, b) ∈ d → b = true →
      List.lookup bid BUTTON_TO_KEY ≠ some k) :
    (releaseHeld d).count (Action.release k) = 0 := by
  induction d with
  | nil => simp [releaseHeld]
  | cons hd tl ih =>
    obtain ⟨bid, ish⟩ := hd
    have htl : ∀ (bid1 : List Char) (b1 : Bool), (bid1, b1) ∈ tl → b1 = true →
        List.lookup bid1 BUTTON_TO_KEY ≠ some k :=
      fun bid1 b1 hm hb => h bid1 b1 (List.mem_cons_of_mem _ hm) hb
    cases ish with
    | false => simpa [releaseHeld] using ih htl
    | true =>
      have hne := h bid true (List.mem_cons_self _ _) rfl
      cases hl : List.lookup bid BUTTON_TO_KEY with
      | none => simpa [releaseHeld, hl] using ih htl
      | some k0 =>
        have hk0 : ¬ k0 = k := fun he => hne (by rw [hl, he])
        simp [releaseHeld, hl, List.count_cons, ih htl, hk0]

theorem count_release_one (d : HeldKeys) :
    ∀ (bid : List Char) (k : Char),
      (d.map Prod.fst).Nodup →
      (∀ p ∈ d, (List.lookup p.1 BUTTON_TO_KEY).isSome = true) →
      List.lookup bid d = some true →
      List.lookup bid BUTTON_TO_KEY = some k →
      (releaseHeld d).count (Action.release k) = 1 := by
  induction d with
  | nil => intro bid k _ _ hl _; simp [List.lookup] at hl
  | cons hd tl ih =>
    intro bid k hnd hdom hl hk
    obtain ⟨bid0, b0⟩ := hd
    by_cases hb : bid = bid0
    · subst hb
      have hb0 : b0 = true := by simpa [List.lookup] using hl
      subst hb0
      have hcnt0 : (releaseHeld tl).count (Action.release k) = 0 := by
        apply count_release_zero
        intro bid1 b1 hm hb1 hk1
        have hbid : bid1 = bid := button_key_inj hk1 hk
        subst hbid
        have hin : bid1 ∈ tl.map Prod.fst := List.mem_map_of_mem Prod.fst hm
        exact (List.nodup_cons.mp (by simpa using hnd)).1 hin
      simp [releaseHeld, hk, List.count_cons, hcnt0]
    · have hl2 : List.lookup bid tl = some true := by
        simpa [List.lookup, show (bid == bid0) = false by simp [hb]] using hl
      have hnd2 : (tl.map Prod.fst).Nodup := (List.nodup_cons.mp (by simpa using hnd)).2
      have hdom2 : ∀ p ∈ tl, (List.lookup p.1 BUTTON_TO_KEY).isSome = true :=
        fun p hp => hdom p (List.mem_cons_of_mem _ hp)
      have hrec := ih bid k hnd2 hdom2 hl2 hk
      cases b0 with
      | false => simpa [releaseHeld] using hrec
      | true =>
        obtain ⟨k0, hk0⟩ :=
          Option.isSome_iff_exists.mp (hdom (bid0, true) (List.mem_cons_self _ _))
        have hk0ne : ¬ k0 = k := by
          intro he
          subst he
          exact hb (button_key_inj hk hk0)
        simp [releaseHeld, hk0, List.count_cons, hrec, hk0ne]

/-- Claim C1: on each shutdown path out of the running state, user
interrupt or mid-read I/O error, every button held at shutdown time gets
exactly one key-up action for its mapped key during cleanup, even when no
release line for it was ever read. -/
theorem shutdown_releases_each_held_key_once :
    ∀ (globFS : List Char → List (List Char)) (p : List Char) (raws : List (List Nat))
      (trig : Trigger) (bid : List Char),
      find_arduino_port globFS = some p →
      dictGet (runLoop [] raws).1 bid false = true →
      ∃ k, List.lookup bid BUTTON_TO_KEY = some k ∧
        (main globFS true raws trig).cleanupActions.count (Action.release k) = 1 := by
  intro globFS p raws trig bid hport hheld
  have hg := runLoop_goodDict raws goodDict_nil
  have hlk : List.lookup bid (runLoop [] raws).1 = some true := dictGet_true_lookup hheld
  have hmem : (bid, true) ∈ (runLoop [] raws).1 := lookup_mem hlk
  obtain ⟨k, hk⟩ := Option.isSome_iff_exists.mp (hg.2 (bid, true) hmem)
  refine ⟨k, hk, ?_⟩
  have hclean : (main globFS true raws trig).cleanupActions =
      releaseHeld (runLoop [] raws).1 := by
    simp [main, hport]
  rw [hclean]
  exact count_release_one _ bid k hg.1 hg.2 hlk hk

theorem shutdown_releases_each_held_key_once_witness :
    find_arduino_port globModem = some ['p'] ∧
    dictGet (runLoop [] [[66, 50, 58, 49]]).1 ['B', '2'] false = true ∧
    ∃ k, List.lookup ['B', '2'] BUTTON_TO_KEY = some k ∧
      (main globModem true [[66, 50, 58, 49]] Trigger.ioError).cleanupActions.count
        (Action.release k) = 1 :=
  ⟨by decide, by decide,
    shutdown_releases_each_held_key_once globModem ['p'] [[66, 50, 58, 49]]
      Trigger.ioError ['B', '2'] (by decide) (by decide)⟩

/-! ## The ignore handler never raises -/

theorem exists_ok_map {X : List Nat} {n : Nat} (f : List Char → List Char)
    (h : ∃ cs, utf8DecodeF Handler.ignore n X = Except.ok cs) :
    ∃ cs, (utf8DecodeF Handler.ignore n X).map f = Except.ok cs := by
  obtain ⟨cs, hcs⟩ := h
  exact ⟨f cs, by rw [hcs]; rfl⟩

theorem utf8DecodeF_ignore_ok :
    ∀ (fuel : Nat) (bs : List Nat), bs.length ≤ fuel →
      ∃ cs, utf8DecodeF Handler.ignore fuel bs = Except.ok cs := by
  intro fuel
  induction fuel with
  | zero =>
    intro bs h
    have hbs : bs = [] := List.length_eq_zero.mp (Nat.le_zero.mp h)
    subst hbs
    exact ⟨[], rfl⟩
  | succ n ih =>
    intro bs h
    cases bs with
    | nil => exact ⟨[], rfl⟩
    | cons b rest =>
      have hr : rest.length ≤ n := by simpa using h
      simp only [utf8DecodeF]
      repeat' split
      all_goals
        first
        | exact ⟨[], rfl⟩
        | exact ih _ (by omega)
        | exact ih _ (by simp only [List.length_cons] at *; omega)
        | exact exists_ok_map _ (ih _ (by omega))
        | exact exists_ok_map _ (ih _ (by simp only [List.length_cons] at *; omega))

/-- Claim C10: decoding a raw read never raises. For every byte list, the
UTF-8 decode with the ignore handler returns a decoded character list
(bytes of invalid sequences are dropped by the handler inside
`utf8DecodeF`), and that character list is exactly what the read loop
hands on to stripping and parsing via `pyDecodeIgnore`. -/
theorem decode_ignore_never_raises :
    ∀ bs : List Nat, ∃ cs,
      utf8Decode Handler.ignore bs = Except.ok cs ∧ pyDecodeIgnore bs = cs := by
  intro bs
  obtain ⟨cs, hcs⟩ := utf8DecodeF_ignore_ok bs.length bs (le_refl _)
  have hcs2 : utf8Decode Handler.ignore bs = Except.ok cs := hcs
  exact ⟨cs, hcs2, by simp [pyDecodeIgnore, hcs2]⟩

end SerialKeybridge
